import Mathlib

/-!
Verification development for the Twitch channel-points miner.

Shallow embedding of the components the claims concern:
* the GQL `AttemptStrategy` retry loop (`classes/gql/Integration.py`),
* the JSON decoder's integer validator (`JSONDictDecoder.py`),
* the event-prediction entities and bettor (`classes/entities/EventPrediction.py`,
  `classes/event_prediction/Bettor.py`, `classes/event_prediction/Manager.py`),
* the `Drop` entity (`classes/entities/Drop.py`),
* the Hermes WebSocket client and pool (`classes/websocket/hermes/Client.py`,
  `classes/websocket/hermes/Pool.py`).

Machine integers are modelled as `Int`/`Nat`; Python float arithmetic on
quantities derived from integers is modelled exactly over `Rat` (the float
rounding of CPython is not modelled); code that raises is modelled with
`Option`/`Except` or an explicit result constructor.
-/

namespace TCPM

/-! ### `AttemptStrategy.make_attempts` (gql/Integration.py)

An attempt either raises an exception (carrying an error of type `E`) or
returns a result of type `R`.  The `validate` hook passed by the GQL client is
`validate_response`, which does nothing, so it is omitted.  The sequence of
outcomes the successive attempts would produce is the oracle `outcomes`. -/

inductive AttemptOutcome (E R : Type) where
  | failure (e : E)
  | success (r : R)
deriving Repr, DecidableEq

/-- `SuccessResult`: the errors of the failed attempts, in order, and the
result of the successful attempt.  `attempts` in the source is
`len(errors) + 1`. -/
structure SuccessResult (E R : Type) where
  errors : List E
  result : R
deriving Repr, DecidableEq

/-- `ErrorResult`: the errors in the order they occurred. -/
structure ErrorResult (E : Type) where
  errors : List E
deriving Repr, DecidableEq

inductive AttemptsResult (E R : Type) where
  | success (s : SuccessResult E R)
  | failure (f : ErrorResult E)
deriving Repr, DecidableEq

/-- The body of `AttemptStrategy.make_attempts`: `remaining` is the number of
attempts still allowed (`self.attempts - attempts` in the source), `idx` the
0-based index of the next attempt, `errors` the accumulator.  On a failure the
error is appended; a non-retryable error breaks out of the loop, as does
exhausting the attempt budget.  (The sleep between attempts has no effect on
the result.) -/
def makeAttemptsGo (outcomes : Nat → AttemptOutcome E R) (retryable : E → Bool) :
    Nat → Nat → List E → AttemptsResult E R
  | 0, _, errors => .failure ⟨errors⟩
  | remaining + 1, idx, errors =>
    match outcomes idx with
    | .success r => .success ⟨errors, r⟩
    | .failure e =>
      if retryable e then
        makeAttemptsGo outcomes retryable remaining (idx + 1) (errors ++ [e])
      else
        .failure ⟨errors ++ [e]⟩

/-- `AttemptStrategy.make_attempts` with `attempts = n`. -/
def makeAttempts (n : Nat) (outcomes : Nat → AttemptOutcome E R) (retryable : E → Bool) :
    AttemptsResult E R :=
  makeAttemptsGo outcomes retryable n 0 []

/-- `RetryError(operationName, errors)` raised by `GQL.__handle_result`. -/
structure RetryError (E : Type) where
  operationName : String
  errors : List E
deriving Repr, DecidableEq

/-- `GQL.__handle_result`: an `ErrorResult` raises `RetryError(operation_name,
result.errors)`; a `SuccessResult` returns the parsed result. -/
def handleResult (result : AttemptsResult E R) (operationName : String) :
    Except (RetryError E) R :=
  match result with
  | .failure f => .error ⟨operationName, f.errors⟩
  | .success s => .ok s.result

/-! ### `int_validator` (JSONDictDecoder.py)

JSON values as CPython sees them at runtime.  In CPython `bool` is a subclass
of `int`, so `isinstance(True, int)` is `True`; the model keeps the two
constructors separate and encodes the subclass relation in
`isinstanceInt`. -/

inductive PyValue where
  | int (n : Int)
  | bool (b : Bool)
  | str (s : String)
  | float (q : Rat)
  | none
  | list (xs : List PyValue)

/-- `isinstance(value, int)` — true for ints and for bools, because `bool` is
a subtype of `int` in the host language. -/
def isinstanceInt : PyValue → Bool
  | .int _ => true
  | .bool _ => true
  | _ => false

/-- `isinstance(value, bool)`. -/
def isinstanceBool : PyValue → Bool
  | .bool _ => true
  | _ => false

/-- The errors `int_validator` can raise (the `property_path` argument is
always `[]` at the raise site). -/
inductive DecodeError where
  | wrongTypeError (value : PyValue)

/-- `instance_of_validator(value, int)`: returns the value if
`isinstance(value, int)`, otherwise raises `WrongTypeError([], int, value)`. -/
def instanceOfValidatorInt (value : PyValue) : Except DecodeError PyValue :=
  if isinstanceInt value then .ok value else .error (.wrongTypeError value)

/-- `int_validator`: rejects booleans with `WrongTypeError` before delegating
to `instance_of_validator(value, int)`. -/
def intValidator (value : PyValue) : Except DecodeError PyValue :=
  if isinstanceBool value then .error (.wrongTypeError value)
  else instanceOfValidatorInt value

/-! ### Event-prediction entities (entities/EventPrediction.py, entities/Bet.py)

Python ints are `Int`; the float arithmetic of the computed outcome fields is
modelled exactly over `Rat`. -/

/-- `int(x)` on a float/number: truncation toward zero. -/
def pyTrunc (q : Rat) : Int := if 0 ≤ q then ⌊q⌋ else ⌈q⌉

/-- `float_round(number, 2)` (utils.py): Python `round` to 2 decimal digits,
ties to even, modelled on exact rationals. -/
def floatRound (q : Rat) : Rat :=
  let y := q * 100
  let f := ⌊y⌋
  let r := y - f
  ((if r < 1 / 2 then f else if 1 / 2 < r then f + 1 else if Even f then f else f + 1 : Int) :
    Rat) / 100

/-- `max(iterable, default=0)` over predictor points: the maximum of the list,
or `0` when it is empty. -/
def pyMaxDefaultZero : List Int → Int
  | [] => 0
  | x :: xs => xs.foldl max x

/-- `ResultType` (entities/EventPrediction.py). -/
inductive ResultType where
  | WIN
  | LOSE
  | REFUND
deriving Repr, DecidableEq

/-- `Result`: the result of a Prediction. -/
structure PredResult where
  resultType : ResultType
  pointsWon : Option Int
deriving Repr, DecidableEq

/-- `Prediction`: the user's own bet on one outcome of one event. -/
structure Prediction where
  outcomeId : String
  points : Int
  result : Option PredResult
deriving Repr, DecidableEq

/-- `Prediction.points_gained`. -/
def Prediction.pointsGained (p : Prediction) : Int :=
  match p.result with
  | Option.none => 0
  | some r =>
    match r.resultType with
    | .REFUND => 0
    | .LOSE => -p.points
    | .WIN =>
      match r.pointsWon with
      | some w => w - p.points
      | Option.none => 0

/-- `Outcome` of an `EventPrediction`; `topPredictors` holds the points of the
top predictors' Predictions, the only part of them the code reads. -/
structure Outcome where
  identity : String
  color : String
  title : String
  totalPoints : Int
  totalUsers : Int
  topPredictors : List Int
  percentageUsers : Rat
  odds : Rat
  oddsPercentage : Rat
  topPoints : Int
deriving Repr, DecidableEq

/-- `Outcome.update(event_total_users, event_total_points)`: recomputes the
derived fields; `odds_percentage` reads the freshly assigned `odds`. -/
def Outcome.update (o : Outcome) (eventTotalUsers eventTotalPoints : Int) : Outcome :=
  let percentageUsers :=
    if eventTotalUsers ≠ 0 then floatRound (100 * ((o.totalUsers : Rat) / eventTotalUsers))
    else 0
  let odds :=
    if o.totalPoints ≠ 0 then floatRound ((eventTotalPoints : Rat) / o.totalPoints) else 0
  let oddsPercentage := if odds ≠ 0 then floatRound (100 / odds) else 0
  { o with
    percentageUsers := percentageUsers
    odds := odds
    oddsPercentage := oddsPercentage
    topPoints := pyMaxDefaultZero o.topPredictors }

/-- `OutcomeKeys` (entities/Bet.py). -/
inductive OutcomeKeys where
  | PERCENTAGE_USERS
  | ODDS_PERCENTAGE
  | ODDS
  | TOP_POINTS
  | TOTAL_USERS
  | TOTAL_POINTS
  | DECISION_USERS
  | DECISION_POINTS
deriving Repr, DecidableEq

/-- `Outcome.get_value(key)` via the `__value_mapping` table; int- and
float-valued keys are read uniformly as rationals. -/
def Outcome.getValue (o : Outcome) : OutcomeKeys → Rat
  | .TOTAL_USERS => o.totalUsers
  | .TOTAL_POINTS => o.totalPoints
  | .ODDS => o.odds
  | .ODDS_PERCENTAGE => o.oddsPercentage
  | .PERCENTAGE_USERS => o.percentageUsers
  | .TOP_POINTS => o.topPoints
  | .DECISION_USERS => o.totalUsers
  | .DECISION_POINTS => o.totalPoints

/-- `EventPrediction`.  The source also stores an `outcomes_by_id` dict that
`__init__` and `update` keep derived from `outcomes`; here it is computed on
demand by `outcomesById`. -/
structure EventPrediction where
  eventId : String
  title : String
  createdAt : Rat
  predictionWindowSeconds : Rat
  status : String
  outcomes : List Outcome
  totalPoints : Int
  totalUsers : Int
  prediction : Option Prediction
deriving Repr, DecidableEq

/-- The `outcomes_by_id` dict comprehension: the last outcome with a given
identity wins. -/
def outcomesById (outcomes : List Outcome) (oid : String) : Option Outcome :=
  outcomes.reverse.find? (fun o => o.identity == oid)

/-- `EventPrediction.update(outcomes=None)`: optionally replaces the outcome
list, recomputes the event totals as sums over outcomes, then updates each
outcome's derived fields with those totals. -/
def EventPrediction.update (e : EventPrediction) (newOutcomes : Option (List Outcome)) :
    EventPrediction :=
  let outcomes :=
    match newOutcomes with
    | some os => os
    | Option.none => e.outcomes
  let totalPoints := (outcomes.map Outcome.totalPoints).sum
  let totalUsers := (outcomes.map Outcome.totalUsers).sum
  { e with
    outcomes := outcomes.map (fun o => o.update totalUsers totalPoints)
    totalPoints := totalPoints
    totalUsers := totalUsers }

/-- `EventPrediction.largest_matching_choice_id(key)`: Python `max` with a key
function keeps the first maximal element; `max` of an empty sequence raises
`ValueError`, modelled as `Option.none`. -/
def EventPrediction.largestMatchingChoiceId (e : EventPrediction) (key : OutcomeKeys) :
    Option String :=
  match e.outcomes with
  | [] => Option.none
  | x :: xs =>
    some ((xs.foldl (fun best o => if best.getValue key < o.getValue key then o else best)
      x).identity)

/-- `EventPrediction.outcome_safe(index)`: the outcome at `index`, or at `0`
when `index` is out of range; indexing an empty list raises `IndexError`,
modelled as `Option.none`. -/
def EventPrediction.outcomeSafe (e : EventPrediction) (index : Int) : Option String :=
  let i : Nat := if 0 ≤ index ∧ index < e.outcomes.length then index.toNat else 0
  (e.outcomes.get? i).map Outcome.identity

/-! ### The bettor (event_prediction/Bettor.py) -/

/-- `Strategy` (entities/Bet.py). -/
inductive Strategy where
  | MOST_VOTED
  | HIGH_ODDS
  | PERCENTAGE
  | SMART_MONEY
  | SMART
  | NUMBER_1
  | NUMBER_2
  | NUMBER_3
  | NUMBER_4
  | NUMBER_5
  | NUMBER_6
  | NUMBER_7
  | NUMBER_8
  | NUMBER_9
  | NUMBER_10
deriving Repr, DecidableEq

/-- The fields of `BetSettings` the embedded code reads. -/
structure BetSettings where
  strategy : Strategy
  percentage : Int
  percentageGap : Rat
  maxPoints : Int
  minimumPoints : Option Int
  stealthMode : Bool
deriving Repr, DecidableEq

/-- `Bet(outcome_id, points)`. -/
structure Bet where
  outcomeId : String
  points : Int
deriving Repr, DecidableEq

/-- The strategy dispatch of `create_bet`: chooses an outcome id.
`Option.none` stands for an uncaught exception (`IndexError` from
`outcome_safe`, `ValueError` from `max`, `KeyError` from `outcomes_by_id`),
which every strategy raises on an event with no outcomes. -/
def selectOutcomeId (e : EventPrediction) (s : BetSettings) : Option String :=
  match s.strategy with
  | .MOST_VOTED => e.largestMatchingChoiceId .TOTAL_USERS
  | .HIGH_ODDS => e.largestMatchingChoiceId .ODDS
  | .PERCENTAGE => e.largestMatchingChoiceId .ODDS_PERCENTAGE
  | .SMART_MONEY => e.largestMatchingChoiceId .TOP_POINTS
  | .NUMBER_1 => e.outcomeSafe 0
  | .NUMBER_2 => e.outcomeSafe 1
  | .NUMBER_3 => e.outcomeSafe 2
  | .NUMBER_4 => e.outcomeSafe 3
  | .NUMBER_5 => e.outcomeSafe 4
  | .NUMBER_6 => e.outcomeSafe 5
  | .NUMBER_7 => e.outcomeSafe 6
  | .NUMBER_8 => e.outcomeSafe 7
  | .NUMBER_9 => e.outcomeSafe 8
  | .NUMBER_10 => e.outcomeSafe 9
  | .SMART =>
    match e.outcomeSafe 0, e.outcomeSafe 1 with
    | some id0, some id1 =>
      (match outcomesById e.outcomes id0, outcomesById e.outcomes id1 with
      | some o0, some o1 =>
        let difference := |o0.percentageUsers - o1.percentageUsers|
        if difference < s.percentageGap then e.largestMatchingChoiceId .ODDS
        else e.largestMatchingChoiceId .TOTAL_USERS
      | _, _ => Option.none)
    | _, _ => Option.none

/-- The possible outcomes of `create_bet`. -/
inductive CreateBetResult where
  | exceptionRaised
  | noBet
  | bet (b : Bet)
deriving Repr, DecidableEq

/-- `create_bet(streamer, event_id)` (module-level function, Bettor.py), for a
tracked event: returns `None` when a Prediction already exists; otherwise
selects an outcome by strategy and computes
`amount = min(int(balance * (percentage / 100)), max_points)`, capped by the
selected outcome's `top_points` when `stealth_mode`, and returns
`Bet(outcome_id, int(amount))`. -/
def createBet (e : EventPrediction) (channelPoints : Int) (s : BetSettings) :
    CreateBetResult :=
  match e.prediction with
  | some _ => .noBet
  | Option.none =>
    match selectOutcomeId e s with
    | Option.none => .exceptionRaised
    | some oid =>
      let amount := min (pyTrunc ((channelPoints : Rat) * ((s.percentage : Rat) / 100)))
        s.maxPoints
      if s.stealthMode then
        match outcomesById e.outcomes oid with
        | Option.none => .exceptionRaised
        | some o => .bet ⟨oid, min amount o.topPoints⟩
      else .bet ⟨oid, amount⟩

/-- `Twitch.make_predictions` (Twitch.py): a prediction request is POSTed only
when the event is still ACTIVE, the filter does not skip the bet, and the
computed amount is at least 10. -/
def makePredictionsSendsRequest (status : String) (skip : Bool) (amount : Int) : Bool :=
  status == "ACTIVE" && (!skip && decide (10 ≤ amount))

/-! ### `TimerEventPredictionBettor.new` (event_prediction/Bettor.py) -/

/-- A bet timer started by `TimerEventPredictionBettor.new`: it fires
`create_and_place_bet` after `delaySeconds`. -/
structure ScheduledTimer where
  delaySeconds : Rat
deriving Repr, DecidableEq

/-- `TimerEventPredictionBettor.new`: returns the timers started.  `tracked`
is `event.event_id in streamer.event_predictions`; `secondsUntilPlaceBet` is
the value `streamer.get_time_until_place_bet(event, current_timestamp)`
returns.  A timer is started only when the event is tracked, the betting time
has not passed, and `minimum_points is None or channel_points >
minimum_points`. -/
def timerBettorNew (tracked : Bool) (secondsUntilPlaceBet : Rat) (channelPoints : Int)
    (minimumPoints : Option Int) : List ScheduledTimer :=
  if tracked then
    if 0 < secondsUntilPlaceBet then
      if (match minimumPoints with
          | Option.none => true
          | some m => decide (m < channelPoints)) then
        [⟨secondsUntilPlaceBet⟩]
      else []
    else []
  else []

/-! ### `EventPredictionTracker.result` (event_prediction/Manager.py) -/

/-- Modelled from the spec: `Streamer.update_history` — `Streamer.py` is not
in the source tree.  Per the spec the streamer's `history` is a counter map
event-type → (count, sum); an update with `(event_type, delta, counter)` adds
`counter` (default `1`) to the count and `delta` to the sum. -/
def updateHistory (h : String → Int × Int) (eventType : String) (delta counter : Int) :
    String → Int × Int :=
  fun k => if k = eventType then ((h k).1 + counter, (h k).2 + delta) else h k

/-- The history adjustments `EventPredictionTracker.result` makes for a
prediction `p` resulted with `result`: a `PREDICTION` entry with the net gain,
plus a corrective `counter=-1` entry for REFUND (under `REFUND`) or WIN (under
`PREDICTION`, `-points_won`). -/
def resultHistoryAdjust (p : Prediction) (result : PredResult) (h : String → Int × Int) :
    String → Int × Int :=
  let p' : Prediction := { p with result := some result }
  let h1 := updateHistory h "PREDICTION" p'.pointsGained 1
  if result.resultType = .REFUND then
    updateHistory h1 "REFUND" (-p.points) (-1)
  else
    match result.resultType, result.pointsWon with
    | .WIN, some w => updateHistory h1 "PREDICTION" (-w) (-1)
    | _, _ => h1

/-- The state `EventPredictionTracker.result` touches: the tracked event's
`prediction`, the keys of its `outcomes_by_id` dict, and the streamer's
history. -/
structure TrackerResultState where
  prediction : Option Prediction
  outcomeIds : List String
  history : String → Int × Int

/-- `EventPredictionTracker.result(streamer, event_id, result)`.  `tracked` is
`event_id in streamer.event_predictions`.  When the event has a Prediction,
`prediction.result` is set, `outcomes_by_id[outcome_id]` is looked up (a
missing key raises `KeyError` after the mutation — first component `true`),
and the history adjustments are applied. -/
def trackerResult (tracked : Bool) (st : TrackerResultState) (result : PredResult) :
    Bool × TrackerResultState :=
  if tracked then
    match st.prediction with
    | Option.none => (false, st)
    | some p =>
      let p' : Prediction := { p with result := some result }
      if st.outcomeIds.contains p.outcomeId then
        (false, { st with
          prediction := some p'
          history := resultHistoryAdjust p result st.history })
      else (true, { st with prediction := some p' })
  else (false, st)

/-! ### `HermesClient.subscribe_pending` (websocket/hermes/Client.py)

`subscribe_pending` repeatedly takes `pending_topics.pop()` — the *last*
element of the list — and subscribes it; an exception puts the topic back with
`append` (again at the tail) and stops the flush.  `ok t = false` models the
subscription attempt for `t` raising. -/

def flushPendingGo (ok : String → Bool) :
    Nat → List String → List String → List String × List String
  | 0, pending, issued => (pending, issued)
  | fuel + 1, pending, issued =>
    match pending.getLast? with
    | Option.none => (pending, issued)
    | some t =>
      if ok t then flushPendingGo ok fuel pending.dropLast (issued ++ [t])
      else (pending.dropLast ++ [t], issued)

/-- `HermesClient.subscribe_pending`: returns the final pending queue and the
topics for which SUBSCRIBE requests were issued, in issue order. -/
def subscribePending (ok : String → Bool) (pending : List String) :
    List String × List String :=
  flushPendingGo ok pending.length pending []

/-! ### `HermesWebSocketPool` (websocket/hermes/Pool.py) -/

/-- `State` (websocket/hermes/Client.py). -/
inductive CState where
  | UNOPENED
  | UNWELCOMED
  | UNAUTHENTICATED
  | OPEN
  | CLOSED
deriving Repr, DecidableEq

/-- A `HermesClient` as the pool sees it: its state, its pending topic queue
and its subscribed topics (`subscriptions.values()`). -/
structure Client where
  cstate : CState
  pending : List String
  subscribed : List String
deriving Repr, DecidableEq

/-- `HermesClient.all_topics`: subscribed topics chained with pending ones. -/
def Client.allTopics (c : Client) : List String :=
  c.subscribed ++ c.pending

/-- `HermesClient.subscribed(topic)`: string comparison over all topics. -/
def Client.holds (c : Client) (t : String) : Bool :=
  c.allTopics.contains t

/-- `HermesClient.subscribe(topic)`: when Open, subscribe now — the send can
fail (`sendOk = false`), in which case the client is marked Closed and the
subscription is not recorded; otherwise the topic joins the pending queue. -/
def Client.subscribe (c : Client) (sendOk : Bool) (t : String) : Client :=
  if c.cstate = .OPEN then
    if sendOk then { c with subscribed := c.subscribed ++ [t] }
    else { c with cstate := .CLOSED }
  else { c with pending := c.pending ++ [t] }

/-- A freshly constructed `HermesClient` (no topics, `State.UNOPENED`). -/
def newClient : Client :=
  { cstate := .UNOPENED, pending := [], subscribed := [] }

/-- `HermesWebSocketPool.__next_available_client`'s search: the index of the
first client that is not Closed and has fewer than
`max_subscriptions_per_client` topics. -/
def nextAvailableIdx (pool : List Client) (maxSubs : Nat) : Option Nat :=
  pool.findIdx? (fun c => decide (c.cstate ≠ .CLOSED) && decide (c.allTopics.length < maxSubs))

/-- `HermesWebSocketPool.submit(topic)`: no-op when some client already holds
the topic; otherwise the next available client subscribes to it, a new client
being created (appended) and started when none is available. -/
def submit (sendOk : Bool) (maxSubs : Nat) (pool : List Client) (t : String) : List Client :=
  if pool.any (fun c => c.holds t) then pool
  else
    match nextAvailableIdx pool maxSubs with
    | some i =>
      match pool.get? i with
      | some c => pool.set i (c.subscribe sendOk t)
      | Option.none => pool
    | Option.none => pool ++ [newClient.subscribe sendOk t]

/-! ### `Drop` (entities/Drop.py) -/

/-- `percentage(a, b)` (utils.py): `0 if a == 0 else int((a / b) * 100)`. -/
def pyPercentage (a b : Int) : Int :=
  if a = 0 then 0 else pyTrunc (((a : Rat) / b) * 100)

/-- The fields of `TimeBasedDropDetails` that `Drop.__init__` reads. -/
structure DropDetails where
  minutesRequired : Int
deriving Repr, DecidableEq

/-- `TimeBasedDropInProgress.SelfEdge`: the inventory progress applied by
`Drop.update`. -/
structure SelfEdge where
  hasPreconditionsMet : Bool
  currentMinutesWatched : Int
  dropInstanceId : Option String
  isClaimed : Bool
deriving Repr, DecidableEq

/-- The mutable state of a `Drop` (the fields the claims concern). -/
structure Drop where
  minutesRequired : Int
  hasPreconditionsMet : Option Bool
  currentMinutesWatched : Int
  dropInstanceId : Option String
  isClaimed : Bool
  isClaimable : Bool
  isPrintable : Bool
  percentageProgress : Int
deriving Repr, DecidableEq

/-- `Drop.__init__(data)`. -/
def dropInit (data : DropDetails) : Drop :=
  { minutesRequired := data.minutesRequired
    hasPreconditionsMet := Option.none
    currentMinutesWatched := 0
    dropInstanceId := Option.none
    isClaimed := false
    isClaimable := false
    isPrintable := false
    percentageProgress := 0 }

/-- `round(updated_percentage / 25, 4).is_integer()`: for an integer
`updated_percentage` the quotient's fractional part is a multiple of `1/25`,
far larger than what rounding to 4 decimal digits can absorb, so the rounded
value is an integer exactly when `25` divides `updated_percentage`. -/
def quarterIsInteger (updatedPercentage : Int) : Bool :=
  decide (updatedPercentage % 25 = 0)

/-- `Drop.update(progress)`. -/
def dropUpdate (d : Drop) (progress : SelfEdge) : Drop :=
  let updatedPercentage := pyPercentage progress.currentMinutesWatched d.minutesRequired
  let quarter := quarterIsInteger updatedPercentage
  let isPrintable :=
    decide (d.currentMinutesWatched < progress.currentMinutesWatched) &&
      ((decide (d.percentageProgress < updatedPercentage) && quarter &&
          decide (d.currentMinutesWatched ≠ 0)) ||
        (decide (progress.currentMinutesWatched = 1) && decide (d.currentMinutesWatched = 0)))
  { d with
    hasPreconditionsMet := some progress.hasPreconditionsMet
    isPrintable := isPrintable
    currentMinutesWatched := progress.currentMinutesWatched
    dropInstanceId := progress.dropInstanceId
    isClaimed := progress.isClaimed
    isClaimable := !progress.isClaimed && progress.dropInstanceId.isSome
    percentageProgress := updatedPercentage }

/-- A `Drop` state reachable from campaign details by applying a sequence of
inventory progress updates. -/
def dropRun (data : DropDetails) (updates : List SelfEdge) : Drop :=
  updates.foldl dropUpdate (dropInit data)

/-! ### Concrete instances used by the witness theorems -/

/-- Attempt oracle for the C1 witness: the first attempt fails with error `7`,
the second succeeds with result `42`. -/
def c1WitnessOutcomes : Nat → AttemptOutcome Nat Nat :=
  fun i => if i = 0 then .failure 7 else .success 42

/-- Concrete event for the C2 witness: two outcomes, the selected one has
`top_points = 250`. -/
def evC2 : EventPrediction :=
  { eventId := "ev2"
    title := "t"
    createdAt := 0
    predictionWindowSeconds := 120
    status := "ACTIVE"
    outcomes :=
      [{ identity := "a", color := "BLUE", title := "A", totalPoints := 5000, totalUsers := 30
         topPredictors := [250, 100], percentageUsers := 0, odds := 0, oddsPercentage := 0
         topPoints := 250 },
       { identity := "b", color := "PINK", title := "B", totalPoints := 1000, totalUsers := 10
         topPredictors := [40], percentageUsers := 0, odds := 0, oddsPercentage := 0
         topPoints := 40 }]
    totalPoints := 6000
    totalUsers := 40
    prediction := Option.none }

/-- Settings for the C2 witness: MOST_VOTED, 10 %, cap 1000, stealth mode. -/
def sC2 : BetSettings :=
  { strategy := .MOST_VOTED, percentage := 10, percentageGap := 20, maxPoints := 1000
    minimumPoints := some 0, stealthMode := true }

/-- Concrete event for the C7 witness. -/
def evC7 : EventPrediction :=
  { eventId := "ev7"
    title := "t"
    createdAt := 0
    predictionWindowSeconds := 60
    status := "ACTIVE"
    outcomes :=
      [{ identity := "x", color := "BLUE", title := "X", totalPoints := 7, totalUsers := 2
         topPredictors := [5], percentageUsers := 0, odds := 0, oddsPercentage := 0
         topPoints := 0 }]
    totalPoints := 0
    totalUsers := 0
    prediction := Option.none }

/-- Concrete zero-outcome event for the C10 witness. -/
def evC10 : EventPrediction :=
  { eventId := "ev10"
    title := "t"
    createdAt := 0
    predictionWindowSeconds := 60
    status := "ACTIVE"
    outcomes := []
    totalPoints := 0
    totalUsers := 0
    prediction := Option.none }

/-- Settings for the C10 witness. -/
def sC10w : BetSettings :=
  { strategy := .SMART, percentage := 5, percentageGap := 20, maxPoints := 50000
    minimumPoints := some 0, stealthMode := false }

/-- Pool for the C6 witness: one Open client already subscribed to topic
`x`. -/
def poolC6 : List Client :=
  [{ cstate := .OPEN, pending := [], subscribed := ["x"] }]

/-- Tracker state for C4: a 100-point prediction on outcome `o1`, empty
history. -/
def c4State : TrackerResultState :=
  { prediction := some ⟨"o1", 100, Option.none⟩
    outcomeIds := ["o1"]
    history := fun _ => (0, 0) }

/-- A LOSE result for C4. -/
def c4Result : PredResult := ⟨.LOSE, Option.none⟩

/-- Subscription oracle for the C5 witness: every topic except `"bad"`
subscribes without raising. -/
def okC5 : String → Bool := fun s => !(s == "bad")

/-! ## Truncation lemmas -/

theorem pyTrunc_intCast (n : Int) : pyTrunc (n : Rat) = n := by
  unfold pyTrunc
  split <;> simp

theorem pyTrunc_mono {a b : Rat} (h : a ≤ b) : pyTrunc a ≤ pyTrunc b := by
  unfold pyTrunc
  by_cases ha : 0 ≤ a
  · rw [if_pos ha, if_pos (le_trans ha h)]
    exact Int.floor_le_floor h
  · rw [if_neg ha]
    by_cases hb : 0 ≤ b
    · rw [if_pos hb]
      have h1 : ⌈a⌉ ≤ (0 : Int) :=
        Int.ceil_le.mpr (by push_cast; exact le_of_lt (lt_of_not_ge ha))
      exact le_trans h1 (Int.floor_nonneg.mpr hb)
    · rw [if_neg hb]
      exact Int.ceil_le_ceil h

/-- Truncation commutes with `min` against an integer bound. -/
theorem pyTrunc_min_intCast (x : Rat) (m : Int) :
    pyTrunc (min x (m : Rat)) = min (pyTrunc x) m := by
  rcases le_total x (m : Rat) with h | h
  · rw [min_eq_left h]
    have hle : pyTrunc x ≤ m := by
      have := pyTrunc_mono h
      rwa [pyTrunc_intCast] at this
    rw [min_eq_left hle]
  · rw [min_eq_right h, pyTrunc_intCast]
    have hle : m ≤ pyTrunc x := by
      have := pyTrunc_mono h
      rwa [pyTrunc_intCast] at this
    rw [min_eq_right hle]

/-- The code's `min(int(balance * (percentage / 100)), max_points)` equals the
spec's `min(balance · percentage / 100, max_points)` truncated to an
integer. -/
theorem createBet_amount_eq (cp pct mp : Int) :
    min (pyTrunc ((cp : Rat) * ((pct : Rat) / 100))) mp =
      pyTrunc (min (((cp * pct : Int) : Rat) / 100) (mp : Rat)) := by
  rw [pyTrunc_min_intCast]
  congr 2
  push_cast
  ring

/-! ## Lemmas for the attempt strategy -/

/-- Running the loop across `k` recoverable failures accumulates their errors
in order and leaves the loop at attempt index `idx + k` with the budget
reduced by `k`. -/
theorem makeAttemptsGo_skip_failures (outcomes : Nat → AttemptOutcome E R)
    (retryable : E → Bool) (errs : Nat → E) :
    ∀ (k remaining idx : Nat) (acc : List E),
      k ≤ remaining →
      (∀ i < k, outcomes (idx + i) = .failure (errs (idx + i)) ∧
        retryable (errs (idx + i)) = true) →
      makeAttemptsGo outcomes retryable remaining idx acc =
        makeAttemptsGo outcomes retryable (remaining - k) (idx + k)
          (acc ++ (List.range k).map (fun i => errs (idx + i))) := by
  intro k
  induction k with
  | zero => intro remaining idx acc _ _; simp
  | succ k ih =>
    intro remaining idx acc hk hfail
    obtain ⟨remaining, rfl⟩ : ∃ m, remaining = m + 1 :=
      ⟨remaining - 1, (Nat.succ_pred_eq_of_pos (Nat.lt_of_lt_of_le (Nat.succ_pos k) hk)).symm⟩
    have h0 := hfail 0 (Nat.succ_pos k)
    rw [Nat.add_zero] at h0
    have hstep : makeAttemptsGo outcomes retryable (remaining + 1) idx acc =
        makeAttemptsGo outcomes retryable remaining (idx + 1) (acc ++ [errs idx]) := by
      rw [makeAttemptsGo, h0.1]
      simp [h0.2]
    rw [hstep]
    have hrest : ∀ i < k, outcomes (idx + 1 + i) = .failure (errs (idx + 1 + i)) ∧
        retryable (errs (idx + 1 + i)) = true := by
      intro i hi
      have := hfail (i + 1) (Nat.succ_lt_succ hi)
      rwa [show idx + (i + 1) = idx + 1 + i by omega] at this
    rw [ih remaining (idx + 1) (acc ++ [errs idx]) (Nat.le_of_succ_le_succ hk) hrest]
    have e2 : idx + 1 + k = idx + (k + 1) := by omega
    have e3 : (acc ++ [errs idx]) ++ (List.range k).map (fun i => errs (idx + 1 + i)) =
        acc ++ (List.range (k + 1)).map (fun i => errs (idx + i)) := by
      rw [List.append_assoc, List.range_succ_eq_map, List.map_cons, List.map_map]
      simp only [List.singleton_append, Nat.add_zero]
      congr 2
      apply List.map_congr_left
      intro i _
      simp only [Function.comp_apply]
      congr 1
      omega
    rw [e2, e3, show remaining - k = remaining + 1 - (k + 1) from by omega]

/-- C1: for a GQL operation run through the attempt strategy with `n` attempts,
if the first `k` attempts fail with recoverable errors then: (1) if attempt
`k+1` (`k < n`) succeeds, the operation returns the parsed result together with
exactly the `k` accumulated errors in order (so `attempts = k+1`); (2) if all
`n` attempts fail recoverably, `RetryError(operationName, errors)` is raised
with all `n` errors in order; (3) if attempt `k+1` fails with a non-recoverable
error, further attempts are aborted immediately and `RetryError` carries the
`k` accumulated errors followed by the aborting one. -/
theorem c1_attempt_strategy_retry (n k : Nat) (outcomes : Nat → AttemptOutcome E R)
    (retryable : E → Bool) (errs : Nat → E) (opName : String)
    (hfail : ∀ i < k, outcomes i = .failure (errs i) ∧ retryable (errs i) = true) :
    (∀ r : R, k < n → outcomes k = .success r →
      makeAttempts n outcomes retryable = .success ⟨(List.range k).map errs, r⟩ ∧
      handleResult (makeAttempts n outcomes retryable) opName = .ok r) ∧
    (k = n →
      handleResult (makeAttempts n outcomes retryable) opName =
        .error ⟨opName, (List.range n).map errs⟩) ∧
    (∀ e : E, k < n → outcomes k = .failure e → retryable e = false →
      handleResult (makeAttempts n outcomes retryable) opName =
        .error ⟨opName, (List.range k).map errs ++ [e]⟩) := by
  have hfail0 : ∀ i < k, outcomes (0 + i) = .failure (errs (0 + i)) ∧
      retryable (errs (0 + i)) = true := by
    intro i hi
    simpa using hfail i hi
  refine ⟨?_, ?_, ?_⟩
  · intro r hk hsucc
    have hskip := makeAttemptsGo_skip_failures outcomes retryable errs k n 0 []
      (Nat.le_of_lt hk) hfail0
    obtain ⟨m, hm⟩ : ∃ m, n - k = m + 1 := ⟨n - k - 1, by omega⟩
    have heq : makeAttempts n outcomes retryable = .success ⟨(List.range k).map errs, r⟩ := by
      rw [makeAttempts, hskip, hm, makeAttemptsGo]
      simp only [Nat.zero_add, hsucc, List.nil_append]
    exact ⟨heq, by rw [heq, handleResult]⟩
  · intro hk
    subst hk
    have hskip := makeAttemptsGo_skip_failures outcomes retryable errs k k 0 []
      (Nat.le_refl k) hfail0
    rw [makeAttempts, hskip, Nat.sub_self, makeAttemptsGo, handleResult]
    simp only [Nat.zero_add, List.nil_append]
  · intro e hk hfaile hnr
    have hskip := makeAttemptsGo_skip_failures outcomes retryable errs k n 0 []
      (Nat.le_of_lt hk) hfail0
    obtain ⟨m, hm⟩ : ∃ m, n - k = m + 1 := ⟨n - k - 1, by omega⟩
    rw [makeAttempts, hskip, hm, makeAttemptsGo]
    simp only [Nat.zero_add, hfaile, hnr, List.nil_append]
    rfl

/-- Witness for C1: three configured attempts, first fails recoverably, second
succeeds; the operation succeeds with one accumulated error (attempts = 2). -/
theorem c1_attempt_strategy_retry_witness :
    makeAttempts 3 c1WitnessOutcomes (fun _ => true) = .success ⟨[7], 42⟩ ∧
    handleResult (makeAttempts 3 c1WitnessOutcomes (fun _ => true)) "OpName" = .ok 42 :=
  (c1_attempt_strategy_retry 3 1 c1WitnessOutcomes (fun _ => true) (fun _ => 7) "OpName"
    (by decide)).1 42 (by decide) (by decide)

/-- C9: decoding a JSON value as an integer succeeds, returning the value
itself, exactly when the value is an integer that is not a boolean; a boolean
always fails with `WrongTypeError`, even though the host language treats
booleans as a subtype of integers (`isinstance(bool_value, int)` holds). -/
theorem c9_int_validator_rejects_bool :
    (∀ v w : PyValue, intValidator v = .ok w ↔ (w = v ∧ ∃ n, v = .int n)) ∧
    (∀ b : Bool, intValidator (.bool b) = .error (.wrongTypeError (.bool b))) ∧
    (∀ b : Bool, isinstanceInt (.bool b) = true) := by
  refine ⟨?_, fun b => rfl, fun b => rfl⟩
  intro v w
  cases v <;> simp [intValidator, instanceOfValidatorInt, isinstanceBool, isinstanceInt]
  tauto

/-- Witness for C9: the integer `3` decodes to itself; the boolean `True`
fails integer decoding with a `WrongTypeError`. -/
theorem c9_int_validator_rejects_bool_witness :
    intValidator (.int 3) = .ok (.int 3) ∧
    intValidator (.bool true) = .error (.wrongTypeError (.bool true)) :=
  ⟨(c9_int_validator_rejects_bool.1 (.int 3) (.int 3)).mpr ⟨rfl, 3, rfl⟩,
    c9_int_validator_rejects_bool.2.1 true⟩

/-- C2: for a streamer with balance `channel_points` and bet settings
`{percentage, max_points, stealth_mode}`, the bet created for an event with no
existing prediction wagers
`amount = min(channel_points · percentage / 100, max_points)` truncated to an
integer; with `stealth_mode` the amount is further capped to
`min(amount, selected_outcome.top_points)`; and an amount below 10 means no
prediction request is sent to the server. -/
theorem c2_bet_amount (e : EventPrediction) (cp : Int) (s : BetSettings) (b : Bet)
    (hpred : e.prediction = Option.none) :
    (createBet e cp s = .bet b →
      (s.stealthMode = false →
        b.points = pyTrunc (min (((cp * s.percentage : Int) : Rat) / 100) (s.maxPoints : Rat))) ∧
      (s.stealthMode = true →
        ∃ o, outcomesById e.outcomes b.outcomeId = some o ∧
          b.points =
            min (pyTrunc (min (((cp * s.percentage : Int) : Rat) / 100) (s.maxPoints : Rat)))
              o.topPoints)) ∧
    (∀ (status : String) (skip : Bool), b.points < 10 →
      makePredictionsSendsRequest status skip b.points = false) := by
  constructor
  · intro hbet
    unfold createBet at hbet
    rw [hpred] at hbet
    rcases hsel : selectOutcomeId e s with _ | oid
    · rw [hsel] at hbet
      exact absurd hbet (by simp)
    rw [hsel] at hbet
    simp only at hbet
    by_cases hst : s.stealthMode
    · rw [if_pos hst] at hbet
      rcases hlook : outcomesById e.outcomes oid with _ | o
      · rw [hlook] at hbet
        exact absurd hbet (by simp)
      rw [hlook] at hbet
      have hb : b = ⟨oid, min (min (pyTrunc ((cp : Rat) * ((s.percentage : Rat) / 100)))
          s.maxPoints) o.topPoints⟩ := by
        cases hbet
        rfl
      subst hb
      refine ⟨fun hfalse => absurd hst (by simp [hfalse]), fun _ => ⟨o, ?_, ?_⟩⟩
      · exact hlook
      · simp only [createBet_amount_eq]
    · rw [if_neg hst] at hbet
      have hb : b = ⟨oid, min (pyTrunc ((cp : Rat) * ((s.percentage : Rat) / 100)))
          s.maxPoints⟩ := by
        cases hbet
        rfl
      subst hb
      refine ⟨fun _ => ?_, fun htrue => absurd htrue hst⟩
      simp only [createBet_amount_eq]
  · intro status skip hlt
    unfold makePredictionsSendsRequest
    simp only [Bool.and_eq_false_iff]
    right
    right
    simpa using not_le.mpr hlt

/-- Witness for C2: balance 20000, 10 % → 2000, capped to `max_points = 1000`,
then stealth-capped to the selected outcome's `top_points = 250`; an amount of
5 (< 10) sends no request. -/
theorem c2_bet_amount_witness :
    createBet evC2 20000 sC2 = .bet ⟨"a", 250⟩ ∧
    (∃ o, outcomesById evC2.outcomes "a" = some o ∧
      (250 : Int) =
        min (pyTrunc (min (((20000 * 10 : Int) : Rat) / 100) ((1000 : Int) : Rat)))
          o.topPoints) ∧
    makePredictionsSendsRequest "ACTIVE" false 5 = false := by
  have htr : pyTrunc (((20000 : Int) : Rat) * (((10 : Int) : Rat) / 100)) = 2000 := by
    have hcast : ((20000 : Int) : Rat) * (((10 : Int) : Rat) / 100) = ((2000 : Int) : Rat) := by
      norm_num
    rw [hcast, pyTrunc_intCast]
  have hbet : createBet evC2 20000 sC2 = .bet ⟨"a", 250⟩ := by
    simp only [createBet, evC2, sC2, selectOutcomeId, EventPrediction.largestMatchingChoiceId,
      Outcome.getValue, outcomesById, List.foldl, htr]
    norm_num
    rfl
  have h := c2_bet_amount evC2 20000 sC2 ⟨"a", 250⟩ rfl
  exact ⟨hbet, (h.1 hbet).2 rfl, (c2_bet_amount evC2 20000 sC2 ⟨"a", 5⟩ rfl).2 "ACTIVE" false
    (by decide)⟩

/-- `Outcome.update` only recomputes derived fields; the wagered totals are
untouched. -/
theorem outcome_update_totals (o : Outcome) (tu tp : Int) :
    (o.update tu tp).totalPoints = o.totalPoints ∧ (o.update tu tp).totalUsers = o.totalUsers :=
  ⟨rfl, rfl⟩

/-- C7: after any call to `EventPrediction.update` (with or without a
replacement outcomes list) on an event with at least one outcome, the event's
`total_points` equals the sum of `total_points` over its outcomes, and its
`total_users` equals the sum of `total_users` over its outcomes. -/
theorem c7_event_totals_invariant (e : EventPrediction) (newOutcomes : Option (List Outcome))
    (_hout : (e.update newOutcomes).outcomes ≠ []) :
    (e.update newOutcomes).totalPoints =
      ((e.update newOutcomes).outcomes.map Outcome.totalPoints).sum ∧
    (e.update newOutcomes).totalUsers =
      ((e.update newOutcomes).outcomes.map Outcome.totalUsers).sum := by
  unfold EventPrediction.update
  cases newOutcomes with
  | none =>
    simp only [List.map_map]
    exact ⟨rfl, rfl⟩
  | some os =>
    simp only [List.map_map]
    exact ⟨rfl, rfl⟩

/-- Witness for C7 at a concrete event with one outcome. -/
theorem c7_event_totals_invariant_witness :
    (evC7.update Option.none).totalPoints =
      ((evC7.update Option.none).outcomes.map Outcome.totalPoints).sum ∧
    (evC7.update Option.none).totalUsers =
      ((evC7.update Option.none).outcomes.map Outcome.totalUsers).sum :=
  c7_event_totals_invariant evC7 Option.none (by decide)

/-- C10: on an `EventPrediction` whose outcomes list is empty, `outcome_safe`
(used by every NUMBER_k strategy and by SMART) and
`largest_matching_choice_id` (used by MOST_VOTED, HIGH_ODDS, PERCENTAGE,
SMART_MONEY and SMART) raise instead of returning an outcome id, so
`create_bet` raises for every strategy and balance: it is not total on events
with zero outcomes. -/
theorem c10_empty_outcomes_raises (e : EventPrediction) (hout : e.outcomes = []) :
    (∀ i : Int, e.outcomeSafe i = Option.none) ∧
    (∀ k : OutcomeKeys, e.largestMatchingChoiceId k = Option.none) ∧
    (e.prediction = Option.none → ∀ (cp : Int) (s : BetSettings),
      createBet e cp s = .exceptionRaised) := by
  have hsafe : ∀ i : Int, e.outcomeSafe i = Option.none := by
    intro i
    unfold EventPrediction.outcomeSafe
    rw [hout]
    simp
  have hlarge : ∀ k : OutcomeKeys, e.largestMatchingChoiceId k = Option.none := by
    intro k
    unfold EventPrediction.largestMatchingChoiceId
    rw [hout]
  refine ⟨hsafe, hlarge, fun hpred cp s => ?_⟩
  have hsel : selectOutcomeId e s = Option.none := by
    unfold selectOutcomeId
    cases s.strategy <;> simp [hsafe, hlarge]
  unfold createBet
  rw [hpred, hsel]

/-- Witness for C10 at a concrete zero-outcome event. -/
theorem c10_empty_outcomes_raises_witness :
    evC10.outcomeSafe 0 = Option.none ∧
    evC10.largestMatchingChoiceId .TOTAL_USERS = Option.none ∧
    createBet evC10 1000 sC10w = .exceptionRaised :=
  ⟨(c10_empty_outcomes_raises evC10 rfl).1 0,
    (c10_empty_outcomes_raises evC10 rfl).2.1 .TOTAL_USERS,
    (c10_empty_outcomes_raises evC10 rfl).2.2 rfl 1000 sC10w⟩

/-- C3 counterexample: with the bet timer due in 5 s and channel points equal
to `minimum_points` (100, "not below" it), the code schedules no timer —
`new` requires `channel_points > minimum_points` strictly, so the claim's
"not below minimum_points" case fails at equality. -/
theorem c3_counterexample :
    timerBettorNew true 5 100 (some 100) = [] ∧ (0 : Rat) < 5 ∧ ¬((100 : Int) < 100) := by
  refine ⟨?_, by norm_num, by omega⟩
  unfold timerBettorNew
  norm_num

/-- C3 (amended): for every new event handed to the bettor's `new` with a
computed `seconds_until_place_bet`, exactly one bet timer firing
`create_and_place_bet` after `seconds_until_place_bet` seconds is scheduled
when the event is tracked, `seconds_until_place_bet > 0` and the streamer's
channel points are *strictly greater* than `minimum_points` (or no minimum is
configured); in every other case no timer is scheduled. -/
theorem c3_timer_scheduling (tracked : Bool) (secs : Rat) (cp : Int) (minP : Option Int) :
    (timerBettorNew tracked secs cp minP = [⟨secs⟩] ↔
      (tracked = true ∧ 0 < secs ∧
        (minP = Option.none ∨ ∃ m, minP = some m ∧ m < cp))) ∧
    (timerBettorNew tracked secs cp minP = [⟨secs⟩] ∨
      timerBettorNew tracked secs cp minP = []) := by
  unfold timerBettorNew
  cases tracked with
  | false => simp
  | true =>
    cases minP with
    | none => split_ifs <;> simp_all
    | some m => split_ifs <;> simp_all

/-- Witness for C3 (amended): tracked event, 5 s until bet time, 1000 points
against a minimum of 100 — exactly one timer with a 5 s delay. -/
theorem c3_timer_scheduling_witness :
    timerBettorNew true 5 1000 (some 100) = [⟨5⟩] :=
  (c3_timer_scheduling true 5 1000 (some 100)).1.mpr
    ⟨rfl, by norm_num, Or.inr ⟨100, rfl, by norm_num⟩⟩

/-- C4 counterexample: a LOSE result for a 100-point prediction applied twice
to the tracker leaves the `PREDICTION` history entry at `(2, -200)` instead of
the once-applied `(1, -100)` — result reconciliation is not idempotent on
history. -/
theorem c4_counterexample :
    (trackerResult true (trackerResult true c4State c4Result).2 c4Result).2.history
        "PREDICTION" = (2, -200) ∧
    (trackerResult true c4State c4Result).2.history "PREDICTION" = (1, -100) ∧
    ((2, -200) : Int × Int) ≠ (1, -100) := by
  refine ⟨?_, ?_, by decide⟩ <;> rfl

/-- C4 (amended): applying the tracker's `result` twice with the same
prediction-result applies the history adjustments twice — the second
application re-records the `PREDICTION` net-gain entry and the corrective
`counter=-1` entries, so the history equals the adjustments applied twice
rather than once; only the prediction's stored result is idempotent. -/
theorem c4_result_double_applies (st : TrackerResultState) (p : Prediction)
    (result : PredResult) (hp : st.prediction = some p)
    (hok : st.outcomeIds.contains p.outcomeId = true) :
    trackerResult true st result =
      (false, { st with
        prediction := some { p with result := some result }
        history := resultHistoryAdjust p result st.history }) ∧
    (trackerResult true (trackerResult true st result).2 result).2.history =
      resultHistoryAdjust p result (resultHistoryAdjust p result st.history) ∧
    (trackerResult true (trackerResult true st result).2 result).2.prediction =
      (trackerResult true st result).2.prediction := by
  have hmem : p.outcomeId ∈ st.outcomeIds := by simpa using hok
  have hset : resultHistoryAdjust { p with result := some result } result =
      resultHistoryAdjust p result := rfl
  have h1 : trackerResult true st result =
      (false, { st with
        prediction := some { p with result := some result }
        history := resultHistoryAdjust p result st.history }) := by
    unfold trackerResult
    rw [hp]
    simp [hmem]
  refine ⟨h1, ?_, ?_⟩
  · rw [h1]
    unfold trackerResult
    rw [if_pos (by simp [hmem])]
    simp [hmem, hset]
  · rw [h1]
    unfold trackerResult
    simp [hmem]

/-- Witness for C4 (amended): the double application at the concrete LOSE
scenario equals the adjustments applied twice. -/
theorem c4_result_double_applies_witness :
    (trackerResult true (trackerResult true c4State c4Result).2 c4Result).2.history =
      resultHistoryAdjust ⟨"o1", 100, Option.none⟩ c4Result
        (resultHistoryAdjust ⟨"o1", 100, Option.none⟩ c4Result c4State.history) :=
  (c4_result_double_applies c4State ⟨"o1", 100, Option.none⟩ c4Result rfl (by decide)).2.1

/-- C5 counterexample: with both subscriptions succeeding,
`subscribe_pending` on the queue `[t1, t2]` issues the SUBSCRIBE requests as
`[t2, t1]` — `pending_topics.pop()` takes the *tail* of the queue — not in
the order the topics were queued. -/
theorem c5_counterexample :
    subscribePending (fun _ => true) ["t1", "t2"] = ([], ["t2", "t1"]) ∧
    (["t2", "t1"] : List String) ≠ ["t1", "t2"] := by
  exact ⟨rfl, by decide⟩

/-- Flushing across a suffix of all-succeeding topics: they are issued from
the tail towards the head. -/
theorem flushPendingGo_all_ok (ok : String → Bool) (back : List String) :
    ∀ (fuel : Nat) (rest issued : List String),
      (∀ u ∈ back, ok u = true) → back.length ≤ fuel →
      flushPendingGo ok fuel (rest ++ back) issued =
        flushPendingGo ok (fuel - back.length) rest (issued ++ back.reverse) := by
  induction back using List.reverseRecOn with
  | nil =>
    intro fuel rest issued _ _
    simp
  | append_singleton bs b ih =>
    intro fuel rest issued hok hlen
    rw [List.length_append, List.length_singleton] at hlen
    obtain ⟨f, rfl⟩ : ∃ f, fuel = f + 1 := ⟨fuel - 1, by omega⟩
    have hassoc : rest ++ (bs ++ [b]) = (rest ++ bs) ++ [b] := (List.append_assoc rest bs [b]).symm
    have hokb : ok b = true := hok b (by simp)
    rw [hassoc, flushPendingGo, List.getLast?_concat]
    simp only [hokb, if_true, List.dropLast_concat]
    rw [ih f rest (issued ++ [b]) (fun u hu => hok u (by simp [hu])) (by omega)]
    rw [List.append_assoc issued [b] bs.reverse]
    have : [b] ++ bs.reverse = (bs ++ [b]).reverse := by simp
    rw [this]
    congr 1
    simp only [List.length_append, List.length_singleton]
    omega

/-- C5 (amended): on entering Open, `subscribe_pending` issues the SUBSCRIBE
requests in *reverse* queue order (the pending list is popped from the tail,
LIFO); if a subscription attempt raises, the flush stops and the affected
topic is placed back at the tail of the pending list — the position popped
first — so it is retried first on the next flush. -/
theorem c5_subscribe_pending_lifo (ok : String → Bool) :
    (∀ pending : List String, (∀ t ∈ pending, ok t = true) →
      subscribePending ok pending = ([], pending.reverse)) ∧
    (∀ (front back : List String) (t : String), ok t = false →
      (∀ u ∈ back, ok u = true) →
      subscribePending ok (front ++ t :: back) = (front ++ [t], back.reverse) ∧
      (front ++ [t]).getLast? = some t) := by
  constructor
  · intro pending hok
    unfold subscribePending
    have h := flushPendingGo_all_ok ok pending pending.length [] [] hok (Nat.le_refl _)
    simp only [List.nil_append] at h
    rw [h, Nat.sub_self]
    rfl
  · intro front back t hbad hok
    refine ⟨?_, by simp⟩
    unfold subscribePending
    have hassoc : front ++ t :: back = (front ++ [t]) ++ back := by simp
    rw [hassoc]
    have h := flushPendingGo_all_ok ok back ((front ++ [t]) ++ back).length (front ++ [t]) []
      hok (by
        simp only [List.length_append, List.length_singleton]
        omega)
    rw [h]
    simp only [List.nil_append]
    have hfuel : ((front ++ [t]) ++ back).length - back.length = front.length + 1 := by
      simp only [List.length_append, List.length_singleton]
      omega
    rw [hfuel, flushPendingGo, List.getLast?_concat]
    simp only [hbad, List.dropLast_concat]
    simp

/-- Witness for C5 (amended): queue `[t1, bad, t3]`; `t3` is issued, `bad`
raises and goes back to the tail, where the next pop would take it first. -/
theorem c5_subscribe_pending_lifo_witness :
    subscribePending okC5 ["t1", "bad", "t3"] = (["t1", "bad"], ["t3"]) ∧
    (["t1", "bad"] : List String).getLast? = some "bad" :=
  (c5_subscribe_pending_lifo okC5).2 ["t1"] ["t3"] "bad" rfl
    (by intro u hu; simp at hu; subst hu; rfl)

/-- C8 counterexample: `Drop.update` copies the reported
`currentMinutesWatched` without clamping, so a progress report of 11 minutes
against a 10-minute requirement leaves `current_minutes_watched >
required_minutes_watched`. -/
theorem c8_counterexample :
    (dropUpdate (dropInit ⟨10⟩) ⟨true, 11, Option.none, false⟩).currentMinutesWatched = 11 ∧
    (dropUpdate (dropInit ⟨10⟩) ⟨true, 11, Option.none, false⟩).minutesRequired = 10 ∧
    ¬((11 : Int) ≤ 10) := by
  refine ⟨rfl, rfl, by omega⟩

/-- Every field of the claimed invariant survives a fold of updates whose
reported minutes stay within the requirement. -/
theorem dropFold_inv (req : Int) :
    ∀ (updates : List SelfEdge) (d : Drop),
      d.minutesRequired = req →
      d.currentMinutesWatched ≤ req →
      ((d.isClaimable = true) ↔ (d.isClaimed = false ∧ d.dropInstanceId ≠ Option.none)) →
      (∀ u ∈ updates, u.currentMinutesWatched ≤ req) →
      (updates.foldl dropUpdate d).minutesRequired = req ∧
      (updates.foldl dropUpdate d).currentMinutesWatched ≤ req ∧
      ((updates.foldl dropUpdate d).isClaimable = true ↔
        ((updates.foldl dropUpdate d).isClaimed = false ∧
          (updates.foldl dropUpdate d).dropInstanceId ≠ Option.none)) := by
  intro updates
  induction updates with
  | nil =>
    intro d h1 h2 h3 _
    exact ⟨h1, h2, h3⟩
  | cons u us ih =>
    intro d h1 h2 h3 hb
    simp only [List.foldl_cons]
    apply ih
    · exact h1
    · exact hb u (by simp)
    · show (!u.isClaimed && u.dropInstanceId.isSome) = true ↔
        (u.isClaimed = false ∧ u.dropInstanceId ≠ Option.none)
      simp [Option.isSome_iff_ne_none]
    · intro v hv
      exact hb v (by simp [hv])

/-- C8 (amended): for every Drop state reachable from campaign details by a
sequence of inventory updates, `is_claimable` holds exactly when `is_claimed`
is false and `drop_instance_id` is non-null; and, provided every applied
inventory report keeps `current_minutes_watched` within
`required_minutes_watched` (the code itself never clamps the reported value),
`current_minutes_watched ≤ required_minutes_watched` in every reachable
state. -/
theorem c8_drop_invariants (data : DropDetails) (updates : List SelfEdge)
    (hreq : 0 ≤ data.minutesRequired)
    (hbound : ∀ u ∈ updates, u.currentMinutesWatched ≤ data.minutesRequired) :
    (dropRun data updates).currentMinutesWatched ≤ (dropRun data updates).minutesRequired ∧
    ((dropRun data updates).isClaimable = true ↔
      ((dropRun data updates).isClaimed = false ∧
        (dropRun data updates).dropInstanceId ≠ Option.none)) := by
  have h := dropFold_inv data.minutesRequired updates (dropInit data) rfl (by simpa using hreq)
    (by simp [dropInit]) hbound
  unfold dropRun
  exact ⟨h.1 ▸ h.2.1, h.2.2⟩

/-- Witness for C8 (amended): a 10-minute drop after one in-range update (4
minutes watched, claimable instance present). -/
theorem c8_drop_invariants_witness :
    (dropRun ⟨10⟩ [⟨true, 4, some "inst", false⟩]).currentMinutesWatched ≤
      (dropRun ⟨10⟩ [⟨true, 4, some "inst", false⟩]).minutesRequired ∧
    ((dropRun ⟨10⟩ [⟨true, 4, some "inst", false⟩]).isClaimable = true ↔
      ((dropRun ⟨10⟩ [⟨true, 4, some "inst", false⟩]).isClaimed = false ∧
        (dropRun ⟨10⟩ [⟨true, 4, some "inst", false⟩]).dropInstanceId ≠ Option.none)) :=
  c8_drop_invariants ⟨10⟩ [⟨true, 4, some "inst", false⟩] (by decide)
    (by intro u hu; simp at hu; subst hu; decide)

/-! ## Lemmas about the Hermes pool -/

theorem subscribe_cstate (c : Client) (t : String) :
    (c.subscribe true t).cstate = c.cstate := by
  unfold Client.subscribe
  split <;> rfl

theorem subscribe_allTopics_length (c : Client) (t : String) :
    (c.subscribe true t).allTopics.length = c.allTopics.length + 1 := by
  unfold Client.subscribe Client.allTopics
  split <;> simp <;> omega

theorem subscribe_holds_iff (c : Client) (t u : String) :
    ((c.subscribe true t).holds u = true) ↔ (c.holds u = true ∨ u = t) := by
  unfold Client.subscribe Client.holds Client.allTopics
  split <;> simp [List.mem_append] <;> tauto

theorem newClient_subscribe_holds (t u : String) :
    ((newClient.subscribe true t).holds u = true) ↔ u = t := by
  rw [subscribe_holds_iff]
  unfold newClient Client.holds Client.allTopics
  simp

/-- `submit` on a topic nobody holds either hands it to the client found by
`__next_available_client` or appends a freshly created client. -/
theorem submit_cases (pool : List Client) (t : String) (maxSubs : Nat)
    (hnone : pool.any (fun c => c.holds t) = false) :
    (∃ (i : Nat) (c : Client), nextAvailableIdx pool maxSubs = some i ∧
      pool.get? i = some c ∧
      submit true maxSubs pool t = pool.set i (c.subscribe true t)) ∨
    (nextAvailableIdx pool maxSubs = Option.none ∧
      submit true maxSubs pool t = pool ++ [newClient.subscribe true t]) := by
  unfold submit
  rw [if_neg (by simp [hnone])]
  cases hidx : nextAvailableIdx pool maxSubs with
  | none => exact Or.inr ⟨rfl, rfl⟩
  | some i =>
    have hget : ∃ c, pool.get? i = some c := by
      have h := List.findIdx?_eq_some_iff_getElem.mp hidx
      obtain ⟨hi, _, _⟩ := h
      exact ⟨pool[i], by simp [List.getElem?_eq_getElem hi]⟩
    obtain ⟨c, hc⟩ := hget
    refine Or.inl ⟨i, c, rfl, hc, ?_⟩
    simp only [hc]

/-- The client `nextAvailableIdx` finds is non-Closed, has spare capacity, and
is the lowest-indexed such client. -/
theorem nextAvailableIdx_spec (pool : List Client) (maxSubs : Nat) (i : Nat)
    (h : nextAvailableIdx pool maxSubs = some i) :
    ∃ c, pool.get? i = some c ∧ c.cstate ≠ .CLOSED ∧ c.allTopics.length < maxSubs ∧
      ∀ (j : Nat) (d : Client), j < i → pool.get? j = some d →
        ¬(d.cstate ≠ .CLOSED ∧ d.allTopics.length < maxSubs) := by
  have hh := List.findIdx?_eq_some_iff_getElem.mp h
  obtain ⟨hi, hp, hmin⟩ := hh
  refine ⟨pool[i], by simp [List.getElem?_eq_getElem hi], ?_, ?_, ?_⟩
  · simp only [Bool.and_eq_true, decide_eq_true_eq] at hp
    exact hp.1
  · simp only [Bool.and_eq_true, decide_eq_true_eq] at hp
    exact hp.2
  · intro j d hj hjd
    have hjlen : j < pool.length := Nat.lt_trans hj hi
    rw [List.get?_eq_getElem?, List.getElem?_eq_getElem hjlen] at hjd
    have hd : d = pool[j] := (Option.some.inj hjd).symm
    subst hd
    intro hcontra
    exact hmin j hj (by
      simp only [Bool.and_eq_true, decide_eq_true_eq]
      exact ⟨hcontra.1, hcontra.2⟩)

/-- C6: after `submit(topic)` on a pool satisfying the pool invariants: if
some client already held the topic the pool is unchanged; otherwise the topic
ends up held by exactly one non-Closed client — the lowest-indexed non-Closed
client with fewer than `max_subscriptions_per_client` topics, or a freshly
appended client when none qualifies; no two clients ever hold the same topic
and no client ever exceeds `max_subscriptions_per_client` subscriptions.
(`sendOk = true`: the WebSocket send of an immediate SUBSCRIBE succeeds.) -/
theorem c6_pool_submit (pool : List Client) (t : String) (maxSubs : Nat)
    (hmax : 0 < maxSubs)
    (huniq : ∀ (u : String) (i j : Nat) (ci cj : Client), i ≠ j →
      pool.get? i = some ci → pool.get? j = some cj → ci.holds u = true → cj.holds u = false)
    (hcap : ∀ c ∈ pool, c.allTopics.length ≤ maxSubs) :
    ((∃ c ∈ pool, c.holds t = true) → submit true maxSubs pool t = pool) ∧
    ((∀ c ∈ pool, c.holds t = false) →
      ∃ (i : Nat) (c : Client),
        (submit true maxSubs pool t).get? i = some c ∧ c.cstate ≠ .CLOSED ∧
        c.holds t = true ∧
        (∀ (j : Nat) (d : Client), j ≠ i → (submit true maxSubs pool t).get? j = some d →
          d.holds t = false) ∧
        ((nextAvailableIdx pool maxSubs = some i ∧
          ∀ (j : Nat) (d : Client), j < i → pool.get? j = some d →
            ¬(d.cstate ≠ .CLOSED ∧ d.allTopics.length < maxSubs)) ∨
          (nextAvailableIdx pool maxSubs = Option.none ∧ i = pool.length))) ∧
    ((∀ c ∈ pool, c.holds t = false) →
      (∀ (u : String) (i j : Nat) (ci cj : Client), i ≠ j →
        (submit true maxSubs pool t).get? i = some ci →
        (submit true maxSubs pool t).get? j = some cj →
        ci.holds u = true → cj.holds u = false) ∧
      (∀ c ∈ submit true maxSubs pool t, c.allTopics.length ≤ maxSubs)) := by
  have hanyfalse : (∀ c ∈ pool, c.holds t = false) →
      pool.any (fun c => c.holds t) = false := by
    intro hnone
    simp only [List.any_eq_false]
    intro c hc
    simp [hnone c hc]
  refine ⟨?_, ?_, ?_⟩
  · intro ⟨c, hc, hholds⟩
    unfold submit
    rw [if_pos (by simp only [List.any_eq_true]; exact ⟨c, hc, hholds⟩)]
  · intro hnone
    have hnone' := hanyfalse hnone
    rcases submit_cases pool t maxSubs hnone' with ⟨i, c, hidx, hc, heq⟩ | ⟨hidx, heq⟩
    · obtain ⟨c', hc', hclosed, hlt, hmin⟩ := nextAvailableIdx_spec pool maxSubs i hidx
      have hcc : c = c' := by
        rw [hc] at hc'
        exact Option.some.inj hc'
      subst hcc
      have hilen : i < pool.length := by
        rw [List.get?_eq_getElem?] at hc
        exact (List.getElem?_eq_some_iff.mp hc).1
      refine ⟨i, c.subscribe true t, ?_, ?_, ?_, ?_, Or.inl ⟨hidx, hmin⟩⟩
      · rw [heq, List.get?_eq_getElem?, List.getElem?_set_self hilen]
      · rw [subscribe_cstate]
        exact hclosed
      · exact (subscribe_holds_iff c t t).mpr (Or.inr rfl)
      · intro j d hji hjd
        rw [heq, List.get?_eq_getElem?, List.getElem?_set_ne (fun h => hji h.symm)] at hjd
        rw [← List.get?_eq_getElem?] at hjd
        exact hnone d (List.get?_mem hjd)
    · refine ⟨pool.length, newClient.subscribe true t, ?_, ?_, ?_, ?_,
        Or.inr ⟨hidx, rfl⟩⟩
      · rw [heq, List.get?_eq_getElem?, List.getElem?_concat_length]
      · rw [subscribe_cstate]
        simp [newClient]
      · exact (newClient_subscribe_holds t t).mpr rfl
      · intro j d hji hjd
        rw [heq, List.get?_eq_getElem?] at hjd
        rcases Nat.lt_or_ge j pool.length with h | h
        · rw [List.getElem?_append_left h, ← List.get?_eq_getElem?] at hjd
          exact hnone d (List.get?_mem hjd)
        · exfalso
          rw [List.getElem?_append_right h] at hjd
          rcases Nat.lt_or_ge (j - pool.length) 1 with h1 | h1
          · exact hji (by omega)
          · rw [List.getElem?_eq_none (by simpa using h1)] at hjd
            cases hjd
  · intro hnone
    have hnone' := hanyfalse hnone
    rcases submit_cases pool t maxSubs hnone' with ⟨i, c, hidx, hc, heq⟩ | ⟨hidx, heq⟩
    · obtain ⟨c', hc', hclosed, hlt, hmin⟩ := nextAvailableIdx_spec pool maxSubs i hidx
      have hcc : c = c' := by
        rw [hc] at hc'
        exact Option.some.inj hc'
      subst hcc
      have hilen : i < pool.length := by
        rw [List.get?_eq_getElem?] at hc
        exact (List.getElem?_eq_some_iff.mp hc).1
      have hcase : ∀ (m : Nat) (d : Client),
          (pool.set i (c.subscribe true t)).get? m = some d →
          (m = i ∧ d = c.subscribe true t) ∨ (m ≠ i ∧ pool.get? m = some d) := by
        intro m d hm
        by_cases hmi : m = i
        · subst hmi
          rw [List.get?_eq_getElem?, List.getElem?_set_self hilen] at hm
          exact Or.inl ⟨rfl, (Option.some.inj hm).symm⟩
        · rw [List.get?_eq_getElem?, List.getElem?_set_ne (fun h => hmi h.symm),
            ← List.get?_eq_getElem?] at hm
          exact Or.inr ⟨hmi, hm⟩
      constructor
      · intro u j k cj ck hjk hj hk hcjholds
        rw [heq] at hj hk
        rcases hcase j cj hj with ⟨hji, hjeq⟩ | ⟨hji, hjget⟩
        · subst hjeq
          rcases hcase k ck hk with ⟨hki, _⟩ | ⟨hki, hkget⟩
          · exact absurd (hji.trans hki.symm) hjk
          · rcases (subscribe_holds_iff c t u).mp hcjholds with hcu | rfl
            · exact huniq u i k c ck (fun h => hki h.symm) hc hkget hcu
            · exact hnone ck (List.get?_mem hkget)
        · rcases hcase k ck hk with ⟨hki, hkeq⟩ | ⟨hki, hkget⟩
          · subst hkeq
            cases hb : (c.subscribe true t).holds u with
            | false => rfl
            | true =>
              exfalso
              rcases (subscribe_holds_iff c t u).mp hb with hcu | rfl
              · have := huniq u i j c cj (fun h => hji h.symm) hc hjget hcu
                rw [this] at hcjholds
                cases hcjholds
              · rw [hnone cj (List.get?_mem hjget)] at hcjholds
                cases hcjholds
          · exact huniq u j k cj ck hjk hjget hkget hcjholds
      · intro d hd
        rw [heq] at hd
        rcases List.mem_or_eq_of_mem_set hd with hmem | hdeq
        · exact hcap d hmem
        · subst hdeq
          rw [subscribe_allTopics_length]
          omega
    · have hcase : ∀ (m : Nat) (d : Client),
          (pool ++ [newClient.subscribe true t]).get? m = some d →
          (m < pool.length ∧ pool.get? m = some d) ∨
            (m = pool.length ∧ d = newClient.subscribe true t) := by
        intro m d hm
        rw [List.get?_eq_getElem?] at hm
        rcases Nat.lt_or_ge m pool.length with h | h
        · rw [List.getElem?_append_left h, ← List.get?_eq_getElem?] at hm
          exact Or.inl ⟨h, hm⟩
        · rw [List.getElem?_append_right h] at hm
          rcases Nat.lt_or_ge (m - pool.length) 1 with h1 | h1
          · have hm0 : m - pool.length = 0 := by omega
            rw [hm0] at hm
            simp only [List.getElem?_cons_zero] at hm
            exact Or.inr ⟨by omega, (Option.some.inj hm).symm⟩
          · rw [List.getElem?_eq_none (by simpa using h1)] at hm
            cases hm
      constructor
      · intro u j k cj ck hjk hj hk hcjholds
        rw [heq] at hj hk
        rcases hcase j cj hj with ⟨_, hjget⟩ | ⟨hjlen, hjnew⟩
        · rcases hcase k ck hk with ⟨_, hkget⟩ | ⟨_, hknew⟩
          · exact huniq u j k cj ck hjk hjget hkget hcjholds
          · subst hknew
            cases hb : (newClient.subscribe true t).holds u with
            | false => rfl
            | true =>
              exfalso
              have := (newClient_subscribe_holds t u).mp hb
              subst this
              rw [hnone cj (List.get?_mem hjget)] at hcjholds
              cases hcjholds
        · subst hjnew
          have := (newClient_subscribe_holds t u).mp hcjholds
          subst this
          rcases hcase k ck hk with ⟨_, hkget⟩ | ⟨hklen, _⟩
          · exact hnone ck (List.get?_mem hkget)
          · exact absurd (hjlen.trans hklen.symm) hjk
      · intro d hd
        rw [heq] at hd
        rcases List.mem_append.mp hd with hmem | hnew
        · exact hcap d hmem
        · have : d = newClient.subscribe true t := by simpa using hnew
          subst this
          rw [subscribe_allTopics_length]
          unfold newClient Client.allTopics
          simpa using hmax

/-- Witness for C6: submitting topic `y` to a one-client pool (Open, holding
`x`, capacity 50) subscribes exactly one non-Closed client to it — the
lowest-indexed available client, index 0. -/
theorem c6_pool_submit_witness :
    ∃ (i : Nat) (c : Client),
      (submit true 50 poolC6 "y").get? i = some c ∧ c.cstate ≠ .CLOSED ∧
      c.holds "y" = true ∧
      (∀ (j : Nat) (d : Client), j ≠ i → (submit true 50 poolC6 "y").get? j = some d →
        d.holds "y" = false) ∧
      ((nextAvailableIdx poolC6 50 = some i ∧
        ∀ (j : Nat) (d : Client), j < i → poolC6.get? j = some d →
          ¬(d.cstate ≠ .CLOSED ∧ d.allTopics.length < 50)) ∨
        (nextAvailableIdx poolC6 50 = Option.none ∧ i = poolC6.length)) :=
  (c6_pool_submit poolC6 "y" 50 (by decide)
    (by
      intro u i j ci cj hij hi hj _
      have hi0 : i = 0 := by
        cases i with
        | zero => rfl
        | succ n => simp [poolC6] at hi
      have hj0 : j = 0 := by
        cases j with
        | zero => rfl
        | succ n => simp [poolC6] at hj
      exact absurd (hi0.trans hj0.symm) hij)
    (by decide)).2.1 (by decide)

end TCPM
